import Mathlib

/-!
Verification of `src/app.py` (github-event-metrics-service).

The file shallowly embeds the program: timestamps are `Int` (seconds since
the epoch; `datetime` comparison and `total_seconds()` on whole-second wire
timestamps are order- and difference-isomorphic to this), Python lists are
`List Int`, Python dicts are association lists that keep key insertion
order (as CPython dicts do), and the Python `set` used for `EVENT_TYPES`
and `event_ids` is modelled by a list with membership (iteration order of
`EVENT_TYPES` at module import is unspecified in Python, so every
definition that depends on it takes that order as a parameter).
-/

namespace GithubEvents

/-! ### The `bisect` standard-library functions used by the program

`bisect.bisect_left`, `bisect.bisect_right` and `bisect.insort` (which is
`insort_right`: it inserts at the `bisect_right` position).  The `while
lo < hi` loop is modelled with explicit fuel; `a.length + 1` fuel always
suffices since `hi - lo` shrinks every iteration. -/

def blLoop (a : List Int) (x : Int) : Nat → Nat → Nat → Nat
  | 0, lo, _ => lo
  | fuel + 1, lo, hi =>
    if lo < hi then
      if a.getD ((lo + hi) / 2) 0 < x then blLoop a x fuel ((lo + hi) / 2 + 1) hi
      else blLoop a x fuel lo ((lo + hi) / 2)
    else lo

def bisect_left (a : List Int) (x : Int) : Nat :=
  blLoop a x (a.length + 1) 0 a.length

def brLoop (a : List Int) (x : Int) : Nat → Nat → Nat → Nat
  | 0, lo, _ => lo
  | fuel + 1, lo, hi =>
    if lo < hi then
      if x < a.getD ((lo + hi) / 2) 0 then brLoop a x fuel lo ((lo + hi) / 2)
      else brLoop a x fuel ((lo + hi) / 2 + 1) hi
    else lo

def bisect_right (a : List Int) (x : Int) : Nat :=
  brLoop a x (a.length + 1) 0 a.length

def insort (a : List Int) (x : Int) : List Int :=
  a.take (bisect_right a x) ++ x :: a.drop (bisect_right a x)

/-! ### Correctness of the binary searches on sorted lists -/

theorem blLoop_eq (a : List Int) (x : Int) (hs : List.Pairwise (· ≤ ·) a) :
    ∀ (fuel lo hi : Nat), hi - lo < fuel → lo ≤ hi → hi ≤ a.length →
    (∀ y ∈ a.take lo, y < x) → (∀ y ∈ a.drop hi, ¬ y < x) →
    blLoop a x fuel lo hi = a.countP (fun y => decide (y < x)) := by
  intro fuel
  induction fuel with
  | zero => intro lo hi hf; omega
  | succ fuel ih =>
    intro lo hi hf hlh hha h1 h2
    rw [blLoop]
    by_cases hlt : lo < hi
    · rw [if_pos hlt]
      have hmlo : lo ≤ (lo + hi) / 2 := by omega
      have hmhi : (lo + hi) / 2 < hi := by omega
      have hmlen : (lo + hi) / 2 < a.length := by omega
      have hgetd : a.getD ((lo + hi) / 2) 0 = a[(lo + hi) / 2] :=
        List.getD_eq_getElem a 0 hmlen
      by_cases hcmp : a.getD ((lo + hi) / 2) 0 < x
      · rw [if_pos hcmp]
        refine ih ((lo + hi) / 2 + 1) hi (by omega) (by omega) hha ?_ h2
        intro y hy
        rcases List.mem_iff_getElem.mp hy with ⟨i, hi2, rfl⟩
        have hilen : i < a.length := by
          simp [List.length_take] at hi2
          omega
        rw [List.getElem_take]
        have hile : i ≤ (lo + hi) / 2 := by
          simp [List.length_take] at hi2
          omega
        rcases lt_or_eq_of_le hile with hi3 | hi3
        · have := (List.pairwise_iff_getElem.mp hs) i ((lo + hi) / 2) hilen hmlen hi3
          rw [hgetd] at hcmp
          exact lt_of_le_of_lt this hcmp
        · subst hi3
          rw [hgetd] at hcmp
          exact hcmp
      · rw [if_neg hcmp]
        refine ih lo ((lo + hi) / 2) (by omega) (by omega) (by omega) h1 ?_
        intro y hy
        rcases List.mem_iff_getElem.mp hy with ⟨i, hi2, rfl⟩
        rw [List.getElem_drop]
        rw [hgetd] at hcmp
        have hlen : (lo + hi) / 2 + i < a.length := by
          simp [List.length_drop] at hi2
          omega
        rcases Nat.eq_zero_or_pos i with hi0 | hi0
        · subst hi0
          simpa using hcmp
        · have := (List.pairwise_iff_getElem.mp hs) ((lo + hi) / 2) ((lo + hi) / 2 + i)
            hmlen hlen (by omega)
          intro hc
          exact hcmp (lt_of_le_of_lt this hc)
    · rw [if_neg hlt]
      have hlo : lo = hi := by omega
      subst hlo
      conv_rhs => rw [← List.take_append_drop lo a]
      rw [List.countP_append]
      have ht : (a.take lo).countP (fun y => decide (y < x)) = (a.take lo).length := by
        rw [List.countP_eq_length]
        intro y hy
        exact decide_eq_true (h1 y hy)
      have hd : (a.drop lo).countP (fun y => decide (y < x)) = 0 := by
        rw [List.countP_eq_zero]
        intro y hy
        simpa using h2 y hy
      rw [ht, hd, List.length_take]
      omega

theorem brLoop_eq (a : List Int) (x : Int) (hs : List.Pairwise (· ≤ ·) a) :
    ∀ (fuel lo hi : Nat), hi - lo < fuel → lo ≤ hi → hi ≤ a.length →
    (∀ y ∈ a.take lo, y ≤ x) → (∀ y ∈ a.drop hi, ¬ y ≤ x) →
    brLoop a x fuel lo hi = a.countP (fun y => decide (y ≤ x)) := by
  intro fuel
  induction fuel with
  | zero => intro lo hi hf; omega
  | succ fuel ih =>
    intro lo hi hf hlh hha h1 h2
    rw [brLoop]
    by_cases hlt : lo < hi
    · rw [if_pos hlt]
      have hmlo : lo ≤ (lo + hi) / 2 := by omega
      have hmhi : (lo + hi) / 2 < hi := by omega
      have hmlen : (lo + hi) / 2 < a.length := by omega
      have hgetd : a.getD ((lo + hi) / 2) 0 = a[(lo + hi) / 2] :=
        List.getD_eq_getElem a 0 hmlen
      by_cases hcmp : x < a.getD ((lo + hi) / 2) 0
      · rw [if_pos hcmp]
        refine ih lo ((lo + hi) / 2) (by omega) (by omega) (by omega) h1 ?_
        intro y hy
        rcases List.mem_iff_getElem.mp hy with ⟨i, hi2, rfl⟩
        rw [List.getElem_drop]
        rw [hgetd] at hcmp
        have hlen : (lo + hi) / 2 + i < a.length := by
          simp [List.length_drop] at hi2
          omega
        rcases Nat.eq_zero_or_pos i with hi0 | hi0
        · subst hi0
          intro hc
          simp at hc
          omega
        · have := (List.pairwise_iff_getElem.mp hs) ((lo + hi) / 2) ((lo + hi) / 2 + i)
            hmlen hlen (by omega)
          intro hc
          omega
      · rw [if_neg hcmp]
        refine ih ((lo + hi) / 2 + 1) hi (by omega) (by omega) hha ?_ h2
        intro y hy
        rcases List.mem_iff_getElem.mp hy with ⟨i, hi2, rfl⟩
        have hilen : i < a.length := by
          simp [List.length_take] at hi2
          omega
        rw [List.getElem_take]
        have hile : i ≤ (lo + hi) / 2 := by
          simp [List.length_take] at hi2
          omega
        rw [hgetd] at hcmp
        rcases lt_or_eq_of_le hile with hi3 | hi3
        · have := (List.pairwise_iff_getElem.mp hs) i ((lo + hi) / 2) hilen hmlen hi3
          omega
        · subst hi3
          omega
    · rw [if_neg hlt]
      have hlo : lo = hi := by omega
      subst hlo
      conv_rhs => rw [← List.take_append_drop lo a]
      rw [List.countP_append]
      have ht : (a.take lo).countP (fun y => decide (y ≤ x)) = (a.take lo).length := by
        rw [List.countP_eq_length]
        intro y hy
        exact decide_eq_true (h1 y hy)
      have hd : (a.drop lo).countP (fun y => decide (y ≤ x)) = 0 := by
        rw [List.countP_eq_zero]
        intro y hy
        simpa using h2 y hy
      rw [ht, hd, List.length_take]
      omega

theorem bisect_left_eq (a : List Int) (x : Int) (hs : List.Pairwise (· ≤ ·) a) :
    bisect_left a x = a.countP (fun y => decide (y < x)) := by
  refine blLoop_eq a x hs (a.length + 1) 0 a.length (by omega) (by omega) (le_refl _) ?_ ?_
  · simp
  · simp

theorem bisect_right_eq (a : List Int) (x : Int) (hs : List.Pairwise (· ≤ ·) a) :
    bisect_right a x = a.countP (fun y => decide (y ≤ x)) := by
  refine brLoop_eq a x hs (a.length + 1) 0 a.length (by omega) (by omega) (le_refl _) ?_ ?_
  · simp
  · simp

/-! ### `insort` on sorted lists: position, order preservation, tie stability -/

theorem countP_le_eq_takeWhile_length (x : Int) :
    ∀ (a : List Int), List.Pairwise (· ≤ ·) a →
    a.countP (fun y => decide (y ≤ x)) = (a.takeWhile (fun y => decide (y ≤ x))).length := by
  intro a
  induction a with
  | nil => intro _; rfl
  | cons b l ih =>
    intro hs
    rcases List.pairwise_cons.mp hs with ⟨hb, hl⟩
    by_cases hbx : b ≤ x
    · rw [List.countP_cons, List.takeWhile_cons]
      simp only [decide_eq_true hbx, if_true, List.length_cons]
      rw [ih hl]
    · rw [List.countP_cons, List.takeWhile_cons]
      simp only [decide_eq_false hbx, if_false, List.length_nil]
      have h0 : l.countP (fun y => decide (y ≤ x)) = 0 := by
        rw [List.countP_eq_zero]
        intro y hy
        simp only [decide_eq_true_eq]
        intro hyx
        exact hbx (le_trans (hb y hy) hyx)
      simp [h0]

theorem mem_dropWhile_le (x : Int) :
    ∀ (a : List Int), List.Pairwise (· ≤ ·) a →
    ∀ y ∈ a.dropWhile (fun y => decide (y ≤ x)), ¬ y ≤ x := by
  intro a
  induction a with
  | nil => intro _ y hy; simp at hy
  | cons b l ih =>
    intro hs y hy
    rcases List.pairwise_cons.mp hs with ⟨hb, hl⟩
    rw [List.dropWhile_cons] at hy
    by_cases hbx : b ≤ x
    · simp only [decide_eq_true hbx, if_true] at hy
      exact ih hl y hy
    · simp only [decide_eq_false hbx, if_false] at hy
      rcases List.mem_cons.mp hy with rfl | hy2
      · exact hbx
      · intro hyx
        exact hbx (le_trans (hb y hy2) hyx)

theorem insort_eq_takeWhile (a : List Int) (x : Int) (hs : List.Pairwise (· ≤ ·) a) :
    insort a x =
      a.takeWhile (fun y => decide (y ≤ x)) ++ x :: a.dropWhile (fun y => decide (y ≤ x)) := by
  unfold insort
  rw [bisect_right_eq a x hs, countP_le_eq_takeWhile_length x a hs]
  set tW := a.takeWhile (fun y => decide (y ≤ x)) with htW
  set dW := a.dropWhile (fun y => decide (y ≤ x)) with hdW
  have hsplit : tW ++ dW = a := by
    rw [htW, hdW]
    exact List.takeWhile_append_dropWhile _ _
  rw [← hsplit, List.take_left, List.drop_left]

theorem insort_sorted (a : List Int) (x : Int) (hs : List.Pairwise (· ≤ ·) a) :
    List.Pairwise (· ≤ ·) (insort a x) := by
  rw [insort_eq_takeWhile a x hs]
  rw [List.pairwise_append]
  refine ⟨List.Pairwise.sublist (List.takeWhile_sublist _) hs, ?_, ?_⟩
  · rw [List.pairwise_cons]
    refine ⟨?_, List.Pairwise.sublist (List.dropWhile_sublist _) hs⟩
    intro y hy
    exact le_of_not_le (mem_dropWhile_le x a hs y hy)
  · intro u hu v hv
    have hux : u ≤ x := by
      have := List.mem_takeWhile_imp hu
      simpa using this
    rcases List.mem_cons.mp hv with rfl | hv2
    · exact hux
    · exact le_trans hux (le_of_not_le (mem_dropWhile_le x a hs v hv2))

/-! ### Data model of `src/app.py`

A raw upstream event carries `id`, `type`, `created_at` and `repo.name`.
`created_at` is the result of `datetime.strptime(...)`: `some t` when the
wire string parses, `none` when parsing raises.  `repo` is `some name`
when `event["repo"]["name"]` exists, `none` when the shape is unexpected
and the lookup raises `KeyError`. -/

structure RawEvent where
  id : String
  type : String
  created_at : Option Int
  repo : Option String
deriving DecidableEq

/-- `EVENT_TYPES = {"WatchEvent", "PullRequestEvent", "IssuesEvent"}`: a
Python `set` literal, used for membership tests and iterated once at
module import to build the keys of `events_by_type`.  Its membership is
modelled by this list; its unspecified iteration order is a parameter
(`kindOrder`) wherever it matters. -/
def EVENT_TYPES : List String := ["WatchEvent", "PullRequestEvent", "IssuesEvent"]

/-- The module-level store: `event_ids` (a `set`, modelled by a
duplicate-free membership list), `events_by_type` and `prs_by_repo`
(dicts, modelled by association lists in key-insertion order). -/
structure Store where
  event_ids : List String
  events_by_type : List (String × List Int)
  prs_by_repo : List (String × List Int)
deriving DecidableEq

/-- The store at module import: `events_by_type` is built by iterating
the `EVENT_TYPES` set in some unspecified order `kindOrder`, giving each
kind an empty list; the other two structures start empty. -/
def initStore (kindOrder : List String) : Store :=
  { event_ids := []
  , events_by_type := kindOrder.map (fun k => (k, []))
  , prs_by_repo := [] }

/-- `d.get(k, [])` on a dict modelled as an association list. -/
def dictGetD (m : List (String × List Int)) (k : String) : List Int :=
  match m.find? (fun p => p.1 == k) with
  | some p => p.2
  | none => []

/-- `bisect.insort(d.setdefault(k, []), t)`: if the key is present its
list receives the insertion in place; otherwise the key is appended to
the dict (insertion order) bound to the freshly inserted singleton. -/
def dictInsort (m : List (String × List Int)) (k : String) (t : Int) :
    List (String × List Int) :=
  if m.any (fun p => p.1 == k) then
    m.map (fun p => if p.1 == k then (p.1, insort p.2 t) else p)
  else
    m ++ [(k, insort [] t)]

/-- The ingestion `for event in events:` loop of `github_events_loop`
(lines 70-81).  Returns the store after the loop, the value of
`ingested_events`, and `true` iff no exception was raised; on the first
exception (unparseable `created_at`, or missing `repo.name` on a
`PullRequestEvent`) the loop stops, keeping every mutation already made —
in particular the failing event's `id`, added before parsing. -/
def ingestLoop (s : Store) (count : Nat) : List RawEvent → Store × Nat × Bool
  | [] => (s, count, true)
  | e :: rest =>
    if e.type ∈ EVENT_TYPES ∧ e.id ∉ s.event_ids then
      let s1 : Store := { s with event_ids := e.id :: s.event_ids }
      match e.created_at with
      | none => (s1, count + 1, false)
      | some t =>
        let s2 : Store := { s1 with events_by_type := dictInsort s1.events_by_type e.type t }
        if e.type = "PullRequestEvent" then
          match e.repo with
          | none => (s2, count + 1, false)
          | some r =>
            ingestLoop { s2 with prs_by_repo := dictInsort s2.prs_by_repo r t } (count + 1) rest
        else ingestLoop s2 (count + 1) rest
    else ingestLoop s count rest

/-! ### The poller loop (`github_events_loop`, lines 61-92)

One iteration of `while True:`.  The function-local `poll_interval` is
only assigned by the tuple assignment `events, poll_interval =
fetch_github_events(headers)`; before the first completed fetch it is an
unbound local, modelled by the outer `none` of `Option (Option Nat)`.
A cycle's input is either an exception escaping `fetch_github_events`
(network failure — caught by the `except` clause with all locals
untouched) or a fetched batch together with the `X-Poll-Interval` hint.
`sleep_time = poll_interval if poll_interval else 60` runs after the
`except` block; reading an unbound local there raises
`UnboundLocalError`, which nothing catches, terminating the loop. -/

structure PollerState where
  store : Store
  poll_interval : Option (Option Nat)
deriving DecidableEq

inductive CycleInput where
  | fetchFailure
  | fetched (events : List RawEvent) (interval : Option Nat)

/-- Python truthiness of `poll_interval if poll_interval else 60`:
`None` and `0` are falsy. -/
def sleep_seconds : Option Nat → Nat
  | none => 60
  | some n => if n = 0 then 60 else n

/-- One cycle of `github_events_loop`: ingest (exceptions caught), then
the sleep computation.  `Except.ok` carries the next state and the sleep
duration; `Except.error` is an uncaught exception that kills the loop. -/
def github_events_cycle (st : PollerState) (inp : CycleInput) :
    Except String (PollerState × Nat) :=
  let st1 : PollerState :=
    match inp with
    | .fetchFailure => st
    | .fetched events interval =>
      { store := (ingestLoop st.store 0 events).1, poll_interval := some interval }
  match st1.poll_interval with
  | none => .error "UnboundLocalError: poll_interval referenced before assignment"
  | some v => .ok (st1, sleep_seconds v)

/-! ### The HTTP endpoints -/

/-- `GET /metrics/average-pr-time` (lines 101-118): the JSON body is the
pair (`average_seconds`, optional `message`).  Seconds are exact here, so
the float arithmetic of `total_seconds`, `sum` and `/` is carried out in
`ℚ`. -/
def average_pr_time (s : Store) (repo_name : String) : Option ℚ × Option String :=
  let prs := dictGetD s.prs_by_repo repo_name
  if prs.length < 2 then
    (none, some ("Only " ++ toString prs.length ++ " PR event(s) found. At least 2 are required."))
  else
    let intervals : List ℚ :=
      (List.range' 1 (prs.length - 1)).map
        (fun i => ((prs.getD i 0 - prs.getD (i - 1) 0 : Int) : ℚ))
    (some (intervals.sum / (intervals.length : ℚ)), none)

/-- `GET /metrics/event-counts` (lines 121-136): `cutoff = now -
offset_minutes minutes`; the result dict maps each key of
`events_by_type` to `len(event_list) - bisect_left(event_list, cutoff)`. -/
def event_counts (s : Store) (now : Int) (offset_minutes : Int) : List (String × Nat) :=
  let cutoff : Int := now - offset_minutes * 60
  s.events_by_type.map (fun p => (p.1, p.2.length - bisect_left p.2 cutoff))

/-- The rendered figure of `GET /metrics/visualization`: the bar chart
(label, height, color per bar, in drawing order) plus axis labels and
title. -/
structure Chart where
  bars : List (String × Nat × String)
  xlabel : String
  ylabel : String
  title : String
deriving DecidableEq

/-- `GET /metrics/visualization` (lines 138-162): recompute the per-kind
counts (the same code as `event_counts`), then
`ax.bar(keys, values, color=['blue', 'green', 'red'])` — matplotlib
assigns the color list cyclically by bar position — and the axis labels
and title literals. -/
def event_visualization (s : Store) (now : Int) (offset_minutes : Int) : Chart :=
  let cutoff : Int := now - offset_minutes * 60
  let event_counts_result : List (String × Nat) :=
    s.events_by_type.map (fun p => (p.1, p.2.length - bisect_left p.2 cutoff))
  { bars := event_counts_result.enum.map
      (fun q => (q.2.1, q.2.2, (["blue", "green", "red"].getD (q.1 % 3) "")))
  , xlabel := "Event Type"
  , ylabel := "Count"
  , title := "Event Counts in the Last " ++ toString offset_minutes ++ " Minutes" }

/-- The endpoint as invoked over HTTP: `offset_minutes` is declared
`fastapi.Query(60, gt = 0)`, so an omitted parameter is the literal
default `60`. -/
def event_visualization_request (s : Store) (now : Int) (offset_minutes : Option Int) : Chart :=
  event_visualization s now (offset_minutes.getD 60)

/-! ### Basic facts about the ingestion loop -/

theorem ingestLoop_nil (s : Store) (c : Nat) : ingestLoop s c [] = (s, c, true) := rfl

theorem ingestLoop_skip (s : Store) (c : Nat) (e : RawEvent) (rest : List RawEvent)
    (h : ¬(e.type ∈ EVENT_TYPES ∧ e.id ∉ s.event_ids)) :
    ingestLoop s c (e :: rest) = ingestLoop s c rest := by
  rw [ingestLoop, if_neg h]

theorem ingestLoop_parse_fail (s : Store) (c : Nat) (e : RawEvent) (rest : List RawEvent)
    (h1 : e.type ∈ EVENT_TYPES) (h2 : e.id ∉ s.event_ids) (h3 : e.created_at = none) :
    ingestLoop s c (e :: rest) = ({ s with event_ids := e.id :: s.event_ids }, c + 1, false) := by
  rw [ingestLoop, if_pos ⟨h1, h2⟩, h3]

theorem ingestLoop_pr_norepo (s : Store) (c : Nat) (e : RawEvent) (rest : List RawEvent)
    (h1 : e.type ∈ EVENT_TYPES) (h2 : e.id ∉ s.event_ids) (t : Int)
    (hca : e.created_at = some t) (hpr : e.type = "PullRequestEvent") (hre : e.repo = none) :
    ingestLoop s c (e :: rest) =
      ({ s with
          event_ids := e.id :: s.event_ids
          events_by_type := dictInsort s.events_by_type e.type t }, c + 1, false) := by
  rw [ingestLoop, if_pos ⟨h1, h2⟩, hca]
  dsimp only
  rw [if_pos hpr, hre]

theorem ingestLoop_accept_pr (s : Store) (c : Nat) (e : RawEvent) (rest : List RawEvent)
    (h1 : e.type ∈ EVENT_TYPES) (h2 : e.id ∉ s.event_ids) (t : Int) (r : String)
    (hca : e.created_at = some t) (hpr : e.type = "PullRequestEvent") (hre : e.repo = some r) :
    ingestLoop s c (e :: rest) =
      ingestLoop
        { s with
          event_ids := e.id :: s.event_ids
          events_by_type := dictInsort s.events_by_type e.type t
          prs_by_repo := dictInsort s.prs_by_repo r t } (c + 1) rest := by
  rw [ingestLoop, if_pos ⟨h1, h2⟩, hca]
  dsimp only
  rw [if_pos hpr, hre]

theorem ingestLoop_accept_nonpr (s : Store) (c : Nat) (e : RawEvent) (rest : List RawEvent)
    (h1 : e.type ∈ EVENT_TYPES) (h2 : e.id ∉ s.event_ids) (t : Int)
    (hca : e.created_at = some t) (hpr : ¬ e.type = "PullRequestEvent") :
    ingestLoop s c (e :: rest) =
      ingestLoop
        { s with
          event_ids := e.id :: s.event_ids
          events_by_type := dictInsort s.events_by_type e.type t } (c + 1) rest := by
  rw [ingestLoop, if_pos ⟨h1, h2⟩, hca]
  dsimp only
  rw [if_neg hpr]

theorem ingestLoop_append (s : Store) (c : Nat) (xs ys : List RawEvent) :
    ingestLoop s c (xs ++ ys) =
      if (ingestLoop s c xs).2.2 then
        ingestLoop (ingestLoop s c xs).1 (ingestLoop s c xs).2.1 ys
      else ingestLoop s c xs := by
  induction xs generalizing s c with
  | nil => rw [ingestLoop_nil]; simp
  | cons e xs ih =>
    rw [List.cons_append]
    by_cases hacc : e.type ∈ EVENT_TYPES ∧ e.id ∉ s.event_ids
    · cases hca : e.created_at with
      | none =>
        rw [ingestLoop_parse_fail _ _ _ _ hacc.1 hacc.2 hca,
          ingestLoop_parse_fail _ _ _ _ hacc.1 hacc.2 hca]
        simp
      | some t =>
        by_cases hpr : e.type = "PullRequestEvent"
        · cases hre : e.repo with
          | none =>
            rw [ingestLoop_pr_norepo _ _ _ _ hacc.1 hacc.2 t hca hpr hre,
              ingestLoop_pr_norepo _ _ _ _ hacc.1 hacc.2 t hca hpr hre]
            simp
          | some r =>
            rw [ingestLoop_accept_pr _ _ _ _ hacc.1 hacc.2 t r hca hpr hre,
              ingestLoop_accept_pr _ _ _ _ hacc.1 hacc.2 t r hca hpr hre]
            exact ih _ _
        · rw [ingestLoop_accept_nonpr _ _ _ _ hacc.1 hacc.2 t hca hpr,
            ingestLoop_accept_nonpr _ _ _ _ hacc.1 hacc.2 t hca hpr]
          exact ih _ _
    · rw [ingestLoop_skip _ _ _ _ hacc, ingestLoop_skip _ _ _ _ hacc]
      exact ih _ _

/-- The sortedness invariant of the store (spec §3): every per-kind and
every per-repository timestamp sequence is non-decreasing. -/
def storeSorted (s : Store) : Prop :=
  (∀ p ∈ s.events_by_type, List.Pairwise (· ≤ ·) p.2) ∧
  (∀ p ∈ s.prs_by_repo, List.Pairwise (· ≤ ·) p.2)

instance (s : Store) : Decidable (storeSorted s) := by
  unfold storeSorted
  infer_instance

theorem dictInsort_sorted (m : List (String × List Int)) (k : String) (t : Int)
    (h : ∀ p ∈ m, List.Pairwise (· ≤ ·) p.2) :
    ∀ p ∈ dictInsort m k t, List.Pairwise (· ≤ ·) p.2 := by
  intro p hp
  unfold dictInsort at hp
  split at hp
  · rcases List.mem_map.mp hp with ⟨q, hq, rfl⟩
    by_cases hk : q.1 == k
    · rw [if_pos hk]
      exact insort_sorted _ _ (h q hq)
    · rw [if_neg hk]
      exact h q hq
  · rcases List.mem_append.mp hp with hp2 | hp2
    · exact h p hp2
    · rcases List.mem_singleton.mp hp2 with rfl
      exact insort_sorted _ _ List.Pairwise.nil

theorem ingestLoop_sorted (evs : List RawEvent) :
    ∀ (s : Store) (c : Nat), storeSorted s → storeSorted (ingestLoop s c evs).1 := by
  induction evs with
  | nil => intro s c h; exact h
  | cons e rest ih =>
    intro s c h
    by_cases hacc : e.type ∈ EVENT_TYPES ∧ e.id ∉ s.event_ids
    · have h1 : storeSorted { s with event_ids := e.id :: s.event_ids } := h
      cases hca : e.created_at with
      | none =>
        rw [ingestLoop_parse_fail _ _ _ _ hacc.1 hacc.2 hca]
        exact h1
      | some t =>
        have h2 : storeSorted { s with
            event_ids := e.id :: s.event_ids
          , events_by_type := dictInsort s.events_by_type e.type t } :=
          ⟨dictInsort_sorted _ _ _ h.1, h.2⟩
        by_cases hpr : e.type = "PullRequestEvent"
        · cases hre : e.repo with
          | none =>
            rw [ingestLoop_pr_norepo _ _ _ _ hacc.1 hacc.2 t hca hpr hre]
            exact h2
          | some r =>
            rw [ingestLoop_accept_pr _ _ _ _ hacc.1 hacc.2 t r hca hpr hre]
            exact ih _ _ ⟨h2.1, dictInsort_sorted _ _ _ h2.2⟩
        · rw [ingestLoop_accept_nonpr _ _ _ _ hacc.1 hacc.2 t hca hpr]
          exact ih _ _ h2
    · rw [ingestLoop_skip _ _ _ _ hacc]
      exact ih _ _ h

/-! ### Helpers for the endpoint claims -/

theorem countP_lt_add_countP_ge (c : Int) :
    ∀ (l : List Int),
    l.countP (fun y => decide (y < c)) + l.countP (fun t => decide (c ≤ t)) = l.length := by
  intro l
  induction l with
  | nil => rfl
  | cons a m ihm =>
    rw [List.countP_cons, List.countP_cons, List.length_cons]
    by_cases hac : a < c
    · have h1 : ¬ c ≤ a := not_le.mpr hac
      simp only [hac, h1]
      simp only [decide_True, decide_False, if_true]
      simp
      omega
    · have h1 : c ≤ a := not_lt.mp hac
      simp only [hac, h1]
      simp only [decide_True, decide_False, if_true]
      simp
      omega

theorem count_since (l : List Int) (c : Int) (hs : List.Pairwise (· ≤ ·) l) :
    l.length - bisect_left l c = l.countP (fun t => decide (c ≤ t)) := by
  have hsum := countP_lt_add_countP_ge c l
  rw [bisect_left_eq l c hs]
  omega

theorem map_range'_shift {α : Type} (f : Nat → α) :
    ∀ (n s : Nat), (List.range' (s + 1) n).map f = (List.range' s n).map (fun i => f (i + 1)) := by
  intro n
  induction n with
  | zero => intro s; rfl
  | succ n ih =>
    intro s
    rw [List.range'_succ, List.range'_succ, List.map_cons, List.map_cons, ih]

theorem gaps_eq (F : Int → Int → ℚ) :
    ∀ (l : List Int),
    (List.range' 1 (l.length - 1)).map (fun i => F (l.getD i 0) (l.getD (i - 1) 0)) =
      List.zipWith (fun b a => F b a) l.tail l := by
  intro l
  induction l with
  | nil => rfl
  | cons a m ih =>
    cases m with
    | nil => rfl
    | cons b t =>
      have hlen : (a :: b :: t).length - 1 = ((b :: t).length - 1) + 1 := by
        simp
      rw [hlen, List.range'_succ, List.map_cons]
      have hshift := map_range'_shift
        (f := fun i => F ((a :: b :: t).getD i 0) ((a :: b :: t).getD (i - 1) 0))
        ((b :: t).length - 1) 1
      rw [hshift]
      have hcong : (List.range' 1 ((b :: t).length - 1)).map
            (fun i => F ((a :: b :: t).getD (i + 1) 0) ((a :: b :: t).getD (i + 1 - 1) 0)) =
          (List.range' 1 ((b :: t).length - 1)).map
            (fun i => F ((b :: t).getD i 0) ((b :: t).getD (i - 1) 0)) := by
        refine List.map_congr_left ?_
        intro i hi
        have hi1 : 1 ≤ i := by
          rcases List.mem_range'_1.mp hi with ⟨h1, _⟩
          exact h1
        have h3 : i + 1 - 1 = (i - 1) + 1 := by omega
        rw [h3]
        rfl
      rw [hcong, ih]
      rfl

theorem enum_map_bar_proj {α β : Type} (g : Nat → β) :
    ∀ (l : List (String × α)) (k : Nat),
    ((List.enumFrom k l).map (fun q => (q.2.1, q.2.2, g q.1))).map (fun b => (b.1, b.2.1)) = l := by
  intro l
  induction l with
  | nil => intro k; rfl
  | cons p rest ih =>
    intro k
    rw [List.enumFrom_cons, List.map_cons, List.map_cons, ih]

theorem enum_map_bar_label {α β : Type} (g : Nat → β) :
    ∀ (l : List (String × α)) (k : Nat),
    ((List.enumFrom k l).map (fun q => (q.2.1, q.2.2, g q.1))).map (fun b => b.1) =
      l.map (fun p => p.1) := by
  intro l
  induction l with
  | nil => intro k; rfl
  | cons p rest ih =>
    intro k
    rw [List.enumFrom_cons, List.map_cons, List.map_cons, ih]
    rfl

theorem enum_bar_proj (g : Nat → String) (l : List (String × Nat)) :
    ((l.enum.map (fun q => (q.2.1, q.2.2, g q.1))).map (fun b => (b.1, b.2.1))) = l :=
  enum_map_bar_proj g l 0

theorem enum_bar_label (g : Nat → String) (l : List (String × Nat)) :
    ((l.enum.map (fun q => (q.2.1, q.2.2, g q.1))).map (fun b => b.1)) =
      l.map (fun p => p.1) :=
  enum_map_bar_label g l 0

/-! ### The claims -/

/-- Claim C1: the spec says every error during a cycle — including one
raised on the very first cycle, before any poll-interval value has ever
been obtained — is caught and the loop proceeds to the sleep step and
continues.  The code violates this: `sleep_time = poll_interval if
poll_interval else 60` sits after the `except` block, and when
`fetch_github_events` raises on the very first cycle the local
`poll_interval` was never assigned, so that line raises an uncaught
`UnboundLocalError` and the poller loop terminates.  This theorem
evaluates the cycle at that failing input. -/
theorem first_cycle_fetch_error_kills_loop :
    github_events_cycle ⟨initStore EVENT_TYPES, none⟩ CycleInput.fetchFailure =
      Except.error "UnboundLocalError: poll_interval referenced before assignment" := rfl

/-- Claim C2, counterexample: the bars are drawn by iterating
`events_by_type`, whose key order is the iteration order of the Python
`set` literal `EVENT_TYPES` at module import — unspecified and varying
with string-hash randomization, not the fixed order Watch, PullRequest,
Issues.  With startup iteration order Issues, Watch, PullRequest (one of
the orders a CPython run can produce), the chart is not the claimed one:
the first bar is IssuesEvent and WatchEvent is green, not blue. -/
theorem visualization_bar_order_counterexample :
    (event_visualization (initStore ["IssuesEvent", "WatchEvent", "PullRequestEvent"]) 0 60).bars ≠
      [("WatchEvent", 0, "blue"), ("PullRequestEvent", 0, "green"), ("IssuesEvent", 0, "red")] := by
  decide

/-- Claim C2 (amended): the chart has one bar per key of
`events_by_type`, in that dict's (startup set-iteration) order; the
colors blue, green, red are assigned positionally to the first, second
and third bar of that order; the x-axis label, y-axis label and title
are the claimed literals. -/
theorem visualization_chart_spec (s : Store) (now off : Int)
    (h3 : s.events_by_type.length = 3) :
    ((event_visualization s now off).bars.map (fun b => b.1) =
        s.events_by_type.map (fun p => p.1)) ∧
    ((event_visualization s now off).bars.map (fun b => b.2.2) = ["blue", "green", "red"]) ∧
    (event_visualization s now off).xlabel = "Event Type" ∧
    (event_visualization s now off).ylabel = "Count" ∧
    (event_visualization s now off).title =
      "Event Counts in the Last " ++ toString off ++ " Minutes" := by
  refine ⟨?_, ?_, rfl, rfl, rfl⟩
  · have hl := enum_bar_label (fun i => (["blue", "green", "red"].getD (i % 3) ""))
      (s.events_by_type.map (fun q =>
        (q.1, q.2.length - bisect_left q.2 (now - off * 60))))
    unfold event_visualization
    dsimp only
    rw [hl, List.map_map]
    rfl
  · rcases List.length_eq_three.mp h3 with ⟨p1, p2, p3, he⟩
    unfold event_visualization
    rw [he]
    rfl

theorem visualization_chart_spec_witness :
    (event_visualization (initStore EVENT_TYPES) 0 60).bars.map (fun b => b.2.2) =
      ["blue", "green", "red"] :=
  (visualization_chart_spec (initStore EVENT_TYPES) 0 60 (by decide)).2.1

/-- Claim C3, counterexample: the claim says a cycle containing a
malformed event leaves the Event Store exactly as it was before the
cycle's ingestion began.  It does not: ingestion runs inside the cycle
`try`, mutating the module-level store in place event by event, and the
exception aborts the loop without rolling anything back — here the
malformed event's id has been added to the seen-ID set. -/
theorem malformed_cycle_changes_store :
    (ingestLoop (initStore EVENT_TYPES) 0
      [{ id := "e1", type := "WatchEvent", created_at := none, repo := none }]).1 ≠
      initStore EVENT_TYPES := by
  decide

/-- Claim C3 (amended): a cycle whose batch contains a malformed event
ingests the events preceding it normally and keeps them, and keeps the
mutations made for the malformed event up to its point of failure: its
identifier always enters the seen-ID set; an unparseable `created_at`
raises before any insertion, so no timestamp of it is stored anywhere,
while a `PullRequestEvent` whose `repo.name` is missing raises only
after the line-78 per-kind insertion, so its timestamp is stored in
timestamps-by-kind but not in the repository map.  Nothing after the
malformed event is ingested, and the exception is caught at whole-cycle
level: the loop proceeds to the sleep step, so subsequent cycles still
run. -/
theorem cycle_partial_ingest_on_malformed (s : Store) (p : Option (Option Nat))
    (good rest : List RawEvent) (bad : RawEvent) (hint : Option Nat)
    (hok : (ingestLoop s 0 good).2.2 = true)
    (h1 : bad.type ∈ EVENT_TYPES)
    (h2 : bad.id ∉ (ingestLoop s 0 good).1.event_ids) :
    (bad.created_at = none →
      github_events_cycle ⟨s, p⟩ (CycleInput.fetched (good ++ bad :: rest) hint) =
        Except.ok
          (⟨{ (ingestLoop s 0 good).1 with
              event_ids := bad.id :: (ingestLoop s 0 good).1.event_ids }, some hint⟩,
            sleep_seconds hint)) ∧
    (∀ t : Int, bad.created_at = some t → bad.type = "PullRequestEvent" → bad.repo = none →
      github_events_cycle ⟨s, p⟩ (CycleInput.fetched (good ++ bad :: rest) hint) =
        Except.ok
          (⟨{ (ingestLoop s 0 good).1 with
              event_ids := bad.id :: (ingestLoop s 0 good).1.event_ids
              events_by_type :=
                dictInsort (ingestLoop s 0 good).1.events_by_type bad.type t }, some hint⟩,
            sleep_seconds hint)) := by
  constructor
  · intro h3
    unfold github_events_cycle
    dsimp only
    rw [ingestLoop_append, if_pos hok,
      ingestLoop_parse_fail _ _ _ _ h1 h2 h3]
  · intro t h3 h4 h5
    unfold github_events_cycle
    dsimp only
    rw [ingestLoop_append, if_pos hok,
      ingestLoop_pr_norepo _ _ _ _ h1 h2 t h3 h4 h5]

theorem cycle_partial_ingest_on_malformed_witness :
    github_events_cycle ⟨initStore EVENT_TYPES, none⟩
      (CycleInput.fetched
        [{ id := "g", type := "WatchEvent", created_at := some 10, repo := none },
         { id := "b", type := "IssuesEvent", created_at := none, repo := none },
         { id := "z", type := "WatchEvent", created_at := some 20, repo := none }]
        (some 30)) =
      Except.ok
        (⟨{ (ingestLoop (initStore EVENT_TYPES) 0
              [{ id := "g", type := "WatchEvent", created_at := some 10, repo := none }]).1 with
            event_ids := "b" :: (ingestLoop (initStore EVENT_TYPES) 0
              [{ id := "g", type := "WatchEvent", created_at := some 10, repo := none }]).1.event_ids },
          some (some 30)⟩, sleep_seconds (some 30)) ∧
    github_events_cycle ⟨initStore EVENT_TYPES, none⟩
      (CycleInput.fetched
        [{ id := "g", type := "WatchEvent", created_at := some 10, repo := none },
         { id := "b2", type := "PullRequestEvent", created_at := some 15, repo := none },
         { id := "z", type := "WatchEvent", created_at := some 20, repo := none }]
        (some 30)) =
      Except.ok
        (⟨{ (ingestLoop (initStore EVENT_TYPES) 0
              [{ id := "g", type := "WatchEvent", created_at := some 10, repo := none }]).1 with
            event_ids := "b2" :: (ingestLoop (initStore EVENT_TYPES) 0
              [{ id := "g", type := "WatchEvent", created_at := some 10, repo := none }]).1.event_ids
            events_by_type :=
              dictInsort (ingestLoop (initStore EVENT_TYPES) 0
                [{ id := "g", type := "WatchEvent", created_at := some 10, repo := none }]).1.events_by_type
                "PullRequestEvent" 15 },
          some (some 30)⟩, sleep_seconds (some 30)) :=
  ⟨(cycle_partial_ingest_on_malformed (initStore EVENT_TYPES) none
      [{ id := "g", type := "WatchEvent", created_at := some 10, repo := none }]
      [{ id := "z", type := "WatchEvent", created_at := some 20, repo := none }]
      { id := "b", type := "IssuesEvent", created_at := none, repo := none }
      (some 30) (by decide) (by decide) (by decide)).1 rfl,
    (cycle_partial_ingest_on_malformed (initStore EVENT_TYPES) none
      [{ id := "g", type := "WatchEvent", created_at := some 10, repo := none }]
      [{ id := "z", type := "WatchEvent", created_at := some 20, repo := none }]
      { id := "b2", type := "PullRequestEvent", created_at := some 15, repo := none }
      (some 30) (by decide) (by decide) (by decide)).2 15 rfl rfl rfl⟩

/-- Claim C4: `event-counts` returns, for each kind, the number of stored
timestamps at or after the cutoff (`now` minus `offset_minutes` minutes),
computed as the sequence length minus the ascending-binary-search index
of the first position at or after the cutoff. -/
theorem event_counts_spec (s : Store) (now offset_minutes : Int)
    (hs : ∀ q ∈ s.events_by_type, List.Pairwise (· ≤ ·) q.2) :
    event_counts s now offset_minutes =
      s.events_by_type.map
        (fun q => (q.1, q.2.countP (fun t => decide (now - offset_minutes * 60 ≤ t)))) := by
  unfold event_counts
  dsimp only
  refine List.map_congr_left ?_
  intro q hq
  rw [count_since q.2 (now - offset_minutes * 60) (hs q hq)]

theorem event_counts_spec_witness :
    event_counts
      ⟨[], [("WatchEvent", [4600, 8200, 9700]), ("PullRequestEvent", []), ("IssuesEvent", [])], []⟩
      10000 60 =
      [("WatchEvent", 2), ("PullRequestEvent", 0), ("IssuesEvent", 0)] := by
  rw [event_counts_spec _ 10000 60 (by decide)]
  decide

/-- Claim C5: `average-pr-time` returns, for a repository with fewer
than 2 stored PullRequest timestamps (including a never-seen repository
with 0), a null average plus the message stating the exact count found
and that at least 2 are required; otherwise the arithmetic mean, in
seconds, of the N-1 consecutive gaps between each timestamp and its
immediate predecessor. -/
theorem average_pr_time_spec (s : Store) (r : String) :
    ((dictGetD s.prs_by_repo r).length < 2 →
      average_pr_time s r =
        (none, some ("Only " ++ toString (dictGetD s.prs_by_repo r).length ++
          " PR event(s) found. At least 2 are required."))) ∧
    (2 ≤ (dictGetD s.prs_by_repo r).length →
      average_pr_time s r =
        (some ((List.zipWith (fun b a => ((b - a : Int) : ℚ))
            (dictGetD s.prs_by_repo r).tail (dictGetD s.prs_by_repo r)).sum /
          ((((dictGetD s.prs_by_repo r).length - 1 : Nat)) : ℚ)), none)) := by
  constructor
  · intro h
    unfold average_pr_time
    rw [if_pos h]
  · intro h
    unfold average_pr_time
    rw [if_neg (by omega)]
    dsimp only
    rw [gaps_eq (fun b a => ((b - a : Int) : ℚ)) (dictGetD s.prs_by_repo r)]
    have hlen : (List.zipWith (fun b a => ((b - a : Int) : ℚ))
        (dictGetD s.prs_by_repo r).tail (dictGetD s.prs_by_repo r)).length =
        (dictGetD s.prs_by_repo r).length - 1 := by
      rw [List.length_zipWith, List.length_tail]
      omega
    rw [hlen]

theorem average_pr_time_spec_witness :
    average_pr_time ⟨[], [], [("o/r", [0, 600, 1800])]⟩ "o/r" = (some 900, none) ∧
    average_pr_time ⟨[], [], []⟩ "o/r" =
      (none, some "Only 0 PR event(s) found. At least 2 are required.") := by
  constructor
  · rw [(average_pr_time_spec ⟨[], [], [("o/r", [0, 600, 1800])]⟩ "o/r").2 (by decide)]
    simp [dictGetD]
    norm_num
  · rw [(average_pr_time_spec ⟨[], [], []⟩ "o/r").1 (by decide)]
    rfl

/-- Claim C6: ingesting an event whose identifier is already in the
seen-ID set changes no store structure — the event is skipped entirely,
so feeding the same identifier twice (within one cycle or across cycles)
leaves exactly the one stored timestamp from the first acceptance. -/
theorem ingest_duplicate_id_skipped (s : Store) (c : Nat) (e : RawEvent)
    (rest : List RawEvent) (h : e.id ∈ s.event_ids) :
    ingestLoop s c (e :: rest) = ingestLoop s c rest :=
  ingestLoop_skip s c e rest (fun hc => hc.2 h)

theorem ingest_duplicate_id_skipped_witness :
    ingestLoop ⟨["a"], [("WatchEvent", [])], []⟩ 0
        [{ id := "a", type := "WatchEvent", created_at := some 5, repo := none }] =
      ingestLoop ⟨["a"], [("WatchEvent", [])], []⟩ 0 [] :=
  ingest_duplicate_id_skipped ⟨["a"], [("WatchEvent", [])], []⟩ 0
    { id := "a", type := "WatchEvent", created_at := some 5, repo := none } [] (by decide)

/-- Claim C7: for every insertion order of accepted events, every
per-kind and every per-repository timestamp sequence is non-decreasing
after every insertion — the sortedness invariant is preserved by the
ingestion of any batch (hence by every prefix of the ingestion
history). -/
theorem ingest_preserves_sorted (s : Store) (c : Nat) (evs : List RawEvent)
    (h : storeSorted s) : storeSorted (ingestLoop s c evs).1 :=
  ingestLoop_sorted evs s c h

theorem ingest_preserves_sorted_witness :
    storeSorted (ingestLoop (initStore EVENT_TYPES) 0
      [{ id := "1", type := "WatchEvent", created_at := some 100, repo := none },
       { id := "2", type := "PullRequestEvent", created_at := some 50, repo := some "o/r" }]).1 :=
  ingest_preserves_sorted (initStore EVENT_TYPES) 0
    [{ id := "1", type := "WatchEvent", created_at := some 100, repo := none },
     { id := "2", type := "PullRequestEvent", created_at := some 50, repo := some "o/r" }]
    (by decide)

/-- Claim C8: `bisect.insort` (the insertion used at lines 78 and 81)
inserts after every element less than or equal to the new timestamp; in
particular, an event with a timestamp equal to ones already present is
placed after all of them, so two equal-timestamp events ingested in the
same cycle keep their upstream-feed order. -/
theorem insort_stable_for_ties (l : List Int) (x : Int)
    (hs : List.Pairwise (· ≤ ·) l) :
    insort l x =
      l.takeWhile (fun y => decide (y ≤ x)) ++ x :: l.dropWhile (fun y => decide (y ≤ x)) ∧
    ∀ y ∈ l.dropWhile (fun y => decide (y ≤ x)), x < y := by
  refine ⟨insort_eq_takeWhile l x hs, ?_⟩
  intro y hy
  exact not_le.mp (mem_dropWhile_le x l hs y hy)

theorem insort_stable_for_ties_witness :
    insort [1, 2, 2, 5] 2 = [1, 2, 2, 2, 5] ∧
    ∀ y ∈ [1, 2, 2, 5].dropWhile (fun y => decide (y ≤ (2 : Int))), (2 : Int) < y := by
  have h := insort_stable_for_ties [1, 2, 2, 5] 2 (by decide)
  refine ⟨?_, h.2⟩
  rw [h.1]
  decide

/-- Claim C9: the visualization endpoint computes exactly the per-kind
counts of the counts endpoint for the same cutoff (its bar heights are
that result), and a call without `offset_minutes` is identical to a call
with an explicit `offset_minutes = 60`. -/
theorem visualization_counts_agree (s : Store) (now : Int) :
    (∀ o : Int, (event_visualization s now o).bars.map (fun b => (b.1, b.2.1)) =
        event_counts s now o) ∧
    event_visualization_request s now none = event_visualization_request s now (some 60) := by
  constructor
  · intro o
    unfold event_visualization event_counts
    dsimp only
    exact enum_bar_proj (fun i => (["blue", "green", "red"].getD (i % 3) ""))
      (s.events_by_type.map (fun p => (p.1, p.2.length - bisect_left p.2 (now - o * 60))))
  · rfl

/-- Claim C10: an accepted event's identifier is added to the seen-ID
set (line 74) before its timestamp is parsed (line 76), so when parsing
fails the store keeps the identifier with no stored timestamp, and any
later re-delivery of that identifier — even with parseable data — is
skipped as a duplicate and never stored. -/
theorem seen_id_without_timestamp_blocks_redelivery (s : Store) (c : Nat) (e : RawEvent)
    (rest : List RawEvent) (h1 : e.type ∈ EVENT_TYPES) (h2 : e.id ∉ s.event_ids)
    (h3 : e.created_at = none) :
    ingestLoop s c (e :: rest) = ({ s with event_ids := e.id :: s.event_ids }, c + 1, false) ∧
    ∀ (e2 : RawEvent) (c2 : Nat) (rest2 : List RawEvent), e2.id = e.id →
      ingestLoop { s with event_ids := e.id :: s.event_ids } c2 (e2 :: rest2) =
        ingestLoop { s with event_ids := e.id :: s.event_ids } c2 rest2 := by
  refine ⟨ingestLoop_parse_fail s c e rest h1 h2 h3, ?_⟩
  intro e2 c2 rest2 hid
  refine ingestLoop_skip _ _ _ _ ?_
  intro hc
  refine hc.2 ?_
  rw [hid]
  exact List.mem_cons_self _ _

theorem seen_id_without_timestamp_blocks_redelivery_witness :
    ingestLoop (initStore EVENT_TYPES) 0
        [{ id := "x", type := "WatchEvent", created_at := none, repo := none }] =
      ({ initStore EVENT_TYPES with event_ids := ["x"] }, 1, false) ∧
    ingestLoop { initStore EVENT_TYPES with event_ids := ["x"] } 0
        [{ id := "x", type := "WatchEvent", created_at := some 7, repo := none }] =
      ingestLoop { initStore EVENT_TYPES with event_ids := ["x"] } 0 [] := by
  have h := seen_id_without_timestamp_blocks_redelivery (initStore EVENT_TYPES) 0
    { id := "x", type := "WatchEvent", created_at := none, repo := none } []
    (by decide) (by decide) rfl
  exact ⟨h.1, h.2 { id := "x", type := "WatchEvent", created_at := some 7, repo := none } 0 [] rfl⟩

end GithubEvents
